import Mathlib

set_option maxHeartbeats 1000000

/- Shallow embedding of src/src/variants.rs: a SQLite-backed store for VCF
   variant records with a batched, compression-interleaved ingest pipeline
   and a query/export engine that reconstructs typed records from rows.
   External collaborators (the noodles VCF reader/writer, SQLite, the
   sqlite-zstd extension) are modelled at their interfaces. -/

/-- Declared type of a VCF INFO key, as recorded in the file header.
Modelled from the spec: the external reader's header object exposes, for each
declared INFO key, a field type used for value parsing; we model the scalar
Integer, String and Flag types plus an Integer-array type whose item parsing
is deferred to the lazy-to-buffered value conversion. -/
inductive InfoType
  | tInteger
  | tString
  | tFlag
  | tIntegerArray
  deriving DecidableEq

/-- Modelled from the spec: the header object produced by the external VCF
reader (`vcf::Header`), restricted to what export-time field-type resolution
needs: the declared INFO keys with their declared types. -/
structure Header where
  infos : List (String × InfoType)
  deriving DecidableEq

/-- One parsed variant record as handed out by the external reader
(`vcf::Record` viewed through the accessors the program uses). `variantStart`
is the 1-based position; `none` means the source record had no resolvable
position. `info` is the raw serialized INFO text (`record.info().as_ref()`). -/
structure VcfRecord where
  chrom : String
  variantStart : Option Nat
  ids : List String
  refBases : String
  alt : String
  qual : Option Rat
  filter : String
  info : String
  deriving DecidableEq

/-- One row of the `variants` table (columns of the INSERT in `import`). -/
structure VariantRow where
  chrom : String
  pos : Option Nat
  id : Option String
  ref : String
  alt : String
  qual : Option Rat
  filter : String
  info : String
  deriving DecidableEq

/-- State of the SQLite database file: the two tables, the index, and the
compression-enabled mark. Tables are `Option`-free lists guarded by
existence flags so that `CREATE TABLE IF NOT EXISTS` is expressible. -/
structure Db where
  hasVariantsTable : Bool
  hasMetadataTable : Bool
  hasIndex : Bool
  variants : List VariantRow
  metadata : List Header
  zstdEnabled : Bool
  deriving DecidableEq

/-- A fresh (empty) database file. -/
def Db.empty : Db :=
  { hasVariantsTable := false
    hasMetadataTable := false
    hasIndex := false
    variants := []
    metadata := []
    zstdEnabled := false }

/-- The DDL block of `Variants::import` (lines 50-77): `CREATE TABLE IF NOT
EXISTS variants`, `CREATE TABLE IF NOT EXISTS metadata`, and `CREATE INDEX IF
NOT EXISTS idx_variants_chrom_pos`. Existing tables and their contents are
kept; missing ones are created empty. -/
def ensureSchema (db : Db) : Db :=
  { db with
    hasVariantsTable := true
    hasMetadataTable := true
    hasIndex := true
    variants := if db.hasVariantsTable then db.variants else []
    metadata := if db.hasMetadataTable then db.metadata else [] }

/-- Observable calls made by the pipeline, in program order. A
`maintenance tl ld` event records one `zstd_incremental_maintenance(tl, ld)`
invocation: `tl` is the time budget in seconds (`none` = SQL NULL = no time
limit) and `ld` the target database-load fraction. -/
inductive Event
  | enableCompression
  | maintenance (timeLimit : Option Nat) (load : Rat)
  | headerInsert
  | beginTx
  | insertRow (row : VariantRow)
  | commitTx
  | vacuum
  | analyze
  deriving DecidableEq

/-- Failure oracles for the fallible storage operations of the ingest loop:
`insertFails row` models a rusqlite error on that row's INSERT, and
`maintFails k` an error from the k-th `zstd_incremental_maintenance` call
(call 0 is the one inside the initial `execute_batch`). -/
structure ImportEnv where
  insertFails : VariantRow → Bool
  maintFails : Nat → Bool

/-- Environment in which no storage operation fails. -/
def noFailEnv : ImportEnv :=
  { insertFails := fun _ => false
    maintFails := fun _ => false }

/-- Errors surfaced by `Variants::import` (each maps to an `anyhow` error in
the source: a record parse failure, an INSERT failure, or a maintenance
failure). -/
inductive ImportError
  | parseError (msg : String)
  | insertError
  | maintError
  deriving DecidableEq

/-- The fn `execute_record` (lines 229-250): extract the eight column values
from a record. Only the first identifier is kept (`ids.iter().next()`), the
position and quality score stay optional, and INFO is stored as its raw
serialized text. -/
def execute_record (record : VcfRecord) : VariantRow :=
  { chrom := record.chrom
    pos := record.variantStart
    id := record.ids.head?
    ref := record.refBases
    alt := record.alt
    qual := record.qual
    filter := record.filter
    info := record.info }

/-- The per-batch record loop (lines 123-132): pull up to `BATCH_SIZE`
stream items, propagating a parse error (`result?`) and an INSERT failure
immediately. Returns the insert events emitted and either the rows staged in
the open transaction or the first error. -/
def insertLoop (env : ImportEnv) :
    List (Except String VcfRecord) → List Event × Except ImportError (List VariantRow)
  | [] => ([], Except.ok [])
  | Except.error msg :: _ => ([], Except.error (ImportError.parseError msg))
  | Except.ok r :: rest =>
    let row := execute_record r
    if env.insertFails row then ([], Except.error ImportError.insertError)
    else
      let res := insertLoop env rest
      (Event.insertRow row :: res.1, res.2.map (fun rows => row :: rows))

/-- One iteration of the `while !done` loop (lines 117-144): open a
transaction, run the record loop, run `zstd_incremental_maintenance(NULL, 1)`
inside the transaction, commit, then VACUUM. Any failure drops the
transaction, rolling the staged rows back. -/
def processBatch (env : ImportEnv) (k : Nat) (db : Db)
    (items : List (Except String VcfRecord)) : List Event × Except ImportError Db :=
  let res := insertLoop env items
  match res.2 with
  | Except.error e => (Event.beginTx :: res.1, Except.error e)
  | Except.ok rows =>
    let evs := Event.beginTx :: res.1 ++ [Event.maintenance none 1]
    if env.maintFails k then (evs, Except.error ImportError.maintError)
    else (evs ++ [Event.commitTx, Event.vacuum],
          Except.ok { db with variants := db.variants ++ rows })

/-- The batch size constant of `Variants::import`. -/
def BATCH_SIZE : Nat := 10000

/-- Split a stream into the chunks consumed by successive iterations of the
`while !done` loop; the chunk size is `b + 1` and `fuel` bounds the
recursion depth (structural recursion on the fuel keeps the definition
kernel-computable). The loop exits only after an iteration in which the
stream ran dry, so a stream whose length is a multiple of the chunk size
ends with one extra, empty chunk. -/
def batchChunksAux (b : Nat) : Nat → List α → List (List α)
  | 0, l => [l]
  | fuel + 1, l =>
    if l.length < b + 1 then [l]
    else l.take (b + 1) :: batchChunksAux b fuel (l.drop (b + 1))

/-- Split a stream into the chunks consumed by successive iterations of the
`while !done` loop, with chunk size `b + 1`. -/
def batchChunks (b : Nat) (l : List α) : List (List α) :=
  batchChunksAux b l.length l

/-- The chunks of the record stream processed by `Variants::import`. -/
def recordBatches (l : List α) : List (List α) :=
  batchChunks (BATCH_SIZE - 1) l

/-- Run the `while !done` loop over the precomputed batch chunks. `k` numbers
the maintenance calls. On a failure the loop aborts: the failing batch rolls
back and the database keeps only previously committed batches. -/
def runBatches (env : ImportEnv) :
    Nat → Db → List (List (Except String VcfRecord)) → Db × List Event × Option ImportError
  | _, db, [] => (db, [], none)
  | k, db, b :: rest =>
    match processBatch env k db b with
    | (evs, Except.error e) => (db, evs, some e)
    | (evs, Except.ok db') =>
      let res := runBatches env (k + 1) db' rest
      (res.1, evs ++ res.2.1, res.2.2)

/-- The fn `store_header` (lines 288-306): serialize the header through the
external writer and INSERT it into `metadata`. The external writer/reader
round trip is modelled as the identity on `Header`, so the row holds the
header itself. -/
def store_header (header : Header) (db : Db) : Db :=
  { db with metadata := db.metadata ++ [header] }

/-- The fn `load_header` (lines 308-317): `SELECT header FROM metadata` via
`query_row`, which yields the first row and errors when there is none, then
re-parse through the external reader (modelled as the identity). -/
def load_header (db : Db) : Option Header :=
  db.metadata.head?

/-- The fn `Variants::import` (lines 43-149): the initial `execute_batch`
(schema DDL, `zstd_enable_transparent`, one `zstd_incremental_maintenance(NULL, 1)`),
then header read and `store_header`, then the batched record loop, then
ANALYZE. Returns the final database, the event trace, and the error if the
run aborted. The record stream carries `Except` items so that per-record
parse failures of the external reader are expressible. -/
def importRun (env : ImportEnv) (db : Db) (header : Header)
    (stream : List (Except String VcfRecord)) : Db × List Event × Option ImportError :=
  let db1 := { ensureSchema db with zstdEnabled := true }
  let evs0 := [Event.enableCompression, Event.maintenance none 1]
  if env.maintFails 0 then (db1, evs0, some ImportError.maintError)
  else
    let db2 := store_header header db1
    let res := runBatches env 1 db2 (recordBatches stream)
    match res.2.2 with
    | some e => (res.1, evs0 ++ [Event.headerInsert] ++ res.2.1, some e)
    | none => (res.1, evs0 ++ [Event.headerInsert] ++ res.2.1 ++ [Event.analyze], none)

/-- Typed INFO value before buffering: the shape produced by the external
reader's `info.iter(header)` step. Array values stay lazy (raw text), as in
the source library, and are only itemized by the later conversion. -/
inductive LazyInfoValue
  | int (n : Int)
  | str (s : String)
  | flag
  | intArrayRaw (raw : List Char)
  deriving DecidableEq

/-- Typed INFO value after conversion into the buffered representation
(`record_buf::info::field::Value`). -/
inductive InfoValue
  | int (n : Int)
  | str (s : String)
  | flag
  | intArray (ns : List Int)
  deriving DecidableEq

/-- Result of a computation that can fail with a propagated error or abort
the process with a panic (an `unwrap` on a failed conversion). -/
inductive Outcome (α : Type)
  | ok (val : α)
  | error
  | panic
  deriving DecidableEq

/-- Split a character list at every occurrence of the separator (the
semantics of `str::split` on a one-character pattern, kept kernel-computable
by working on character lists). -/
def splitChar (c : Char) : List Char → List (List Char)
  | [] => [[]]
  | x :: xs =>
    let r := splitChar c xs
    if x = c then [] :: r
    else
      match r with
      | [] => [[x]]
      | y :: ys => (x :: y) :: ys

/-- Decimal value of a digit character, `none` for a non-digit. -/
def digitVal (c : Char) : Option Nat :=
  if c.isDigit then some (c.toNat - 48) else none

/-- Accumulate the decimal digits of a natural number. -/
def parseNatAux : List Char → Nat → Option Nat
  | [], acc => some acc
  | c :: cs, acc =>
    match digitVal c with
    | none => none
    | some d => parseNatAux cs (acc * 10 + d)

/-- Parse a nonempty all-digit character list as a natural number. -/
def parseNatChars : List Char → Option Nat
  | [] => none
  | cs => parseNatAux cs 0

/-- Parse an optionally `-`-signed decimal integer (the semantics of
`str::parse::<i32>` restricted to what the model needs, kept
kernel-computable by working on character lists). -/
def parseIntChars : List Char → Option Int
  | [] => none
  | '-' :: cs => (parseNatChars cs).map (fun n => -(n : Int))
  | cs => (parseNatChars cs).map (fun n => (n : Int))

/-- Split a raw INFO text into its `;`-separated fields; the missing-INFO
marker `.` (and the empty text) has no fields. -/
def infoFields (s : String) : List (List Char) :=
  if s = "." || s = "" then [] else splitChar ';' s.toList

/-- Key part of one raw INFO field (text before the first `=`). -/
def fieldKey : List Char → List Char
  | [] => []
  | '=' :: _ => []
  | c :: cs => c :: fieldKey cs

/-- Value part of one raw INFO field (text after the first `=`), `none` for a
valueless (Flag-style) field. -/
def fieldValue : List Char → Option (List Char)
  | [] => none
  | '=' :: cs => some cs
  | _ :: cs => fieldValue cs

/-- Look up the declared type of an INFO key in the header. -/
def lookupType (h : Header) (k : List Char) : Option InfoType :=
  h.infos.lookup (String.mk k)

/-- Modelled from the spec: the external reader's typed parse of one raw INFO
field against the header. The key's declared type must be resolvable from the
header, otherwise the field fails to parse; a `.` value denotes a missing
value; scalar values are parsed per the declared type, array values are kept
lazy. -/
def lazyParseField (h : Header) (f : List Char) : Option (String × Option LazyInfoValue) :=
  match lookupType h (fieldKey f) with
  | none => none
  | some t =>
    match fieldValue f with
    | none =>
      if t = InfoType.tFlag then some (String.mk (fieldKey f), some LazyInfoValue.flag)
      else none
    | some v =>
      if v = ['.'] then some (String.mk (fieldKey f), none)
      else
        match t with
        | InfoType.tFlag => none
        | InfoType.tInteger =>
          (parseIntChars v).map (fun n => (String.mk (fieldKey f), some (LazyInfoValue.int n)))
        | InfoType.tString =>
          some (String.mk (fieldKey f), some (LazyInfoValue.str (String.mk v)))
        | InfoType.tIntegerArray =>
          some (String.mk (fieldKey f), some (LazyInfoValue.intArrayRaw v))

/-- The `info.iter(header).collect::<io::Result<Vec<_>>>()` step of
`parse_info`: parse every field or fail. -/
def lazyParseFields (h : Header) : List (List Char) → Option (List (String × Option LazyInfoValue))
  | [] => some []
  | f :: rest =>
    match lazyParseField h f, lazyParseFields h rest with
    | some kv, some l => some (kv :: l)
    | _, _ => none

/-- Parse every `,`-separated item of a lazy array value as an integer. -/
def parseIntItems : List (List Char) → Option (List Int)
  | [] => some []
  | v :: rest =>
    match parseIntChars v, parseIntItems rest with
    | some n, some ns => some (n :: ns)
    | _, _ => none

/-- The fallible `v.try_into()` conversion from the reader's lazy INFO value
into the buffered representation: lazy array text is itemized here and fails
on a malformed item. -/
def convertValue : LazyInfoValue → Option InfoValue
  | LazyInfoValue.int n => some (InfoValue.int n)
  | LazyInfoValue.str s => some (InfoValue.str s)
  | LazyInfoValue.flag => some InfoValue.flag
  | LazyInfoValue.intArrayRaw raw =>
    (parseIntItems (splitChar ',' raw)).map InfoValue.intArray

/-- The `.map(|(k, v)| { let v = v.map(|v| v.try_into().unwrap()); ... })`
step of `parse_info` (lines 270-276): convert every parsed value, panicking
(not erroring) when a conversion fails. -/
def convertPairs : List (String × Option LazyInfoValue) → Outcome (List (String × Option InfoValue))
  | [] => Outcome.ok []
  | (k, none) :: rest =>
    match convertPairs rest with
    | Outcome.ok l => Outcome.ok ((k, none) :: l)
    | Outcome.error => Outcome.error
    | Outcome.panic => Outcome.panic
  | (k, some v) :: rest =>
    match convertValue v with
    | none => Outcome.panic
    | some bv =>
      match convertPairs rest with
      | Outcome.ok l => Outcome.ok ((k, some bv) :: l)
      | Outcome.error => Outcome.error
      | Outcome.panic => Outcome.panic

/-- The fn `parse_info` (lines 252-286): re-parse the raw stored INFO text
against the header, then convert every value into the buffered
representation. A parse failure propagates as an error; a conversion failure
panics through the `unwrap`. -/
def parse_info (s : String) (h : Header) : Outcome (List (String × Option InfoValue)) :=
  match lazyParseFields h (infoFields s) with
  | none => Outcome.error
  | some l => convertPairs l

/-- Modelled from the spec: `noodles::core::Position::try_from(usize)`, the
1-based coordinate validation. Position 0 is rejected. -/
def positionTryFrom (n : Nat) : Option Nat :=
  if n = 0 then none else some n

/-- One reconstructed output record, as assembled by the `RecordBuf` builder
in `Variants::query` plus the quality-score fixup. -/
structure OutRecord where
  chrom : String
  pos : Nat
  ids : List String
  refBases : String
  alts : List String
  qual : Option Rat
  filters : List String
  info : List (String × Option InfoValue)
  deriving DecidableEq

/-- The per-row body of the export loop (lines 184-220): validate the
position (an absent position is substituted with 0 by `unwrap_or_default`),
build the zero-or-one identifier list, wrap alt and filter, re-parse INFO,
and assign the optional quality score afterwards. -/
def exportRow (h : Header) (row : VariantRow) : Outcome OutRecord :=
  match positionTryFrom (row.pos.getD 0) with
  | none => Outcome.error
  | some p =>
    match parse_info row.info h with
    | Outcome.error => Outcome.error
    | Outcome.panic => Outcome.panic
    | Outcome.ok info =>
      Outcome.ok
        { chrom := row.chrom
          pos := p
          ids := row.id.toList
          refBases := row.ref
          alts := [row.alt]
          qual := row.qual
          filters := [row.filter]
          info := info }

/-- Stream the result rows through the per-row reconstruction, aborting the
whole export at the first failing row. -/
def exportRows (h : Header) : List VariantRow → Outcome (List OutRecord)
  | [] => Outcome.ok []
  | row :: rest =>
    match exportRow h row with
    | Outcome.error => Outcome.error
    | Outcome.panic => Outcome.panic
    | Outcome.ok r =>
      match exportRows h rest with
      | Outcome.ok rs => Outcome.ok (r :: rs)
      | Outcome.error => Outcome.error
      | Outcome.panic => Outcome.panic

/-- The fn `Variants::query` (lines 151-226) for the ungrouped, unfiltered
export (`group_by = None`, `having = None`): the SQL is then the plain
`SELECT chrom, pos, id, ref, alt, qual, filter, info FROM variants`, whose
result rows are the table rows in insertion order. The header is loaded from
the metadata table (failing when it is absent) and each row is reconstructed
into one output record. -/
def query (db : Db) : Outcome (List OutRecord) :=
  match load_header db with
  | none => Outcome.error
  | some h => exportRows h db.variants

/-- Rows contributed to the store by the successfully parsed records of a
batch (for a committed batch every item is parsed, so these are exactly its
rows). -/
def committedRows (b : List (Except String VcfRecord)) : List VariantRow :=
  b.filterMap (fun x => x.toOption.map execute_record)

/-- Event trace of one committed batch iteration. -/
def batchTraceOk (recs : List VcfRecord) : List Event :=
  Event.beginTx :: recs.map (fun r => Event.insertRow (execute_record r)) ++
    [Event.maintenance none 1, Event.commitTx, Event.vacuum]

/-- Event trace of a complete, failure-free run of `Variants::import`. -/
def fullTrace (records : List VcfRecord) : List Event :=
  Event.enableCompression :: Event.maintenance none 1 :: Event.headerInsert ::
    ((recordBatches records).map batchTraceOk).flatten ++ [Event.analyze]

/-- Recognize a compression-maintenance invocation, whatever its budget. -/
def isMaint : Event → Bool
  | Event.maintenance _ _ => true
  | _ => false

/-- Events that can be emitted by the batch loop: transaction control,
row inserts, VACUUM, and maintenance with the maximum-effort budget
(`NULL` time limit, load fraction 1). -/
def isBatchEvent : Event → Bool
  | Event.beginTx => true
  | Event.insertRow _ => true
  | Event.commitTx => true
  | Event.vacuum => true
  | Event.maintenance tl ld => tl == none && ld == 1
  | _ => false

/-- The suffix of a trace starting at the first occurrence of the marker
event. -/
def eventsFrom (e : Event) (evs : List Event) : List Event :=
  evs.dropWhile (fun x => x != e)

/-- Shape agreement between a lazy INFO value and a declared type. -/
def lazyValueHasType : LazyInfoValue → InfoType → Bool
  | LazyInfoValue.int _, InfoType.tInteger => true
  | LazyInfoValue.str _, InfoType.tString => true
  | LazyInfoValue.flag, InfoType.tFlag => true
  | LazyInfoValue.intArrayRaw _, InfoType.tIntegerArray => true
  | _, _ => false

/-- Shape agreement between a buffered INFO value and a declared type. -/
def valueHasType : InfoValue → InfoType → Bool
  | InfoValue.int _, InfoType.tInteger => true
  | InfoValue.str _, InfoType.tString => true
  | InfoValue.flag, InfoType.tFlag => true
  | InfoValue.intArray _, InfoType.tIntegerArray => true
  | _, _ => false

/-- Field agreement between a source record and its exported reconstruction:
chrom, ref, qual and filter are preserved, and the exported id list carries
at most the source record's first identifier. -/
def RoundTripMatch (r : VcfRecord) (o : OutRecord) : Prop :=
  o.chrom = r.chrom ∧ o.refBases = r.refBases ∧ o.qual = r.qual ∧
    o.filters = [r.filter] ∧ o.ids = r.ids.head?.toList

/-- Example header: four INFO keys covering the four declared types. -/
def exampleHeader : Header :=
  ⟨[("DP", InfoType.tInteger), ("AA", InfoType.tString),
    ("DB", InfoType.tFlag), ("AC", InfoType.tIntegerArray)]⟩

/-- Example record with two identifiers and a quality score. -/
def exampleRecord1 : VcfRecord :=
  { chrom := "1", variantStart := some 100, ids := ["rs1", "rs2"], refBases := "A",
    alt := "T", qual := some 30, filter := "PASS", info := "DP=14;DB" }

/-- Example record with no identifier and no quality score. -/
def exampleRecord2 : VcfRecord :=
  { chrom := "1", variantStart := some 200, ids := [], refBases := "C",
    alt := "G", qual := none, filter := "PASS", info := "." }

/-- Example record with one identifier. -/
def exampleRecord3 : VcfRecord :=
  { chrom := "2", variantStart := some 300, ids := ["rs3"], refBases := "G",
    alt := "C", qual := some 10, filter := "q10", info := "AA=T" }

/-- Syntactically valid record with no resolvable position. -/
def noPosRecord : VcfRecord :=
  { chrom := "1", variantStart := none, ids := [], refBases := "A",
    alt := "T", qual := none, filter := "PASS", info := "." }

/-- Syntactically valid record whose INFO key `ZZ` is not declared in
`exampleHeader`. -/
def badKeyRecord : VcfRecord :=
  { chrom := "1", variantStart := some 7, ids := [], refBases := "A",
    alt := "T", qual := none, filter := "PASS", info := "ZZ=1" }

/-- Stored row whose INFO parses lazily but whose Integer-array item `x`
fails the lazy-to-buffered conversion. -/
def panicRow : VariantRow :=
  { chrom := "1", pos := some 5, id := none, ref := "A", alt := "T",
    qual := none, filter := "PASS", info := "AC=1,x" }

/-- Database whose single row triggers the conversion panic on export. -/
def panicDb : Db :=
  { hasVariantsTable := true, hasMetadataTable := true, hasIndex := true,
    variants := [panicRow], metadata := [exampleHeader], zstdEnabled := true }

/-- Stored row with a NULL position column. -/
def noPosRow : VariantRow :=
  { chrom := "1", pos := none, id := none, ref := "A", alt := "T",
    qual := none, filter := "PASS", info := "." }

/-- Database whose single row has a NULL position. -/
def noPosDb : Db :=
  { hasVariantsTable := true, hasMetadataTable := true, hasIndex := true,
    variants := [noPosRow], metadata := [exampleHeader], zstdEnabled := true }

/-! Helper lemmas about the batch chunking. -/

theorem batchChunksAux_flatten (b : Nat) :
    ∀ (fuel : Nat) (l : List α), (batchChunksAux b fuel l).flatten = l := by
  intro fuel
  induction fuel with
  | zero => intro l; simp [batchChunksAux]
  | succ n ih =>
    intro l
    by_cases h : l.length < b + 1
    · simp [batchChunksAux, h]
    · simp [batchChunksAux, h, ih]

theorem recordBatches_flatten (l : List α) : (recordBatches l).flatten = l :=
  batchChunksAux_flatten _ _ l

theorem batchChunksAux_ne_nil (b : Nat) :
    ∀ (fuel : Nat) (l : List α), batchChunksAux b fuel l ≠ [] := by
  intro fuel
  cases fuel with
  | zero => intro l; simp [batchChunksAux]
  | succ n =>
    intro l
    by_cases h : l.length < b + 1
    · simp [batchChunksAux, h]
    · simp [batchChunksAux, h]

theorem recordBatches_ne_nil (l : List α) : recordBatches l ≠ [] :=
  batchChunksAux_ne_nil _ _ l

theorem batchChunksAux_map (b : Nat) (f : α → β) :
    ∀ (fuel : Nat) (l : List α),
      batchChunksAux b fuel (l.map f) = (batchChunksAux b fuel l).map (List.map f) := by
  intro fuel
  induction fuel with
  | zero => intro l; simp [batchChunksAux]
  | succ n ih =>
    intro l
    by_cases h : l.length < b + 1
    · simp [batchChunksAux, h]
    · simp only [batchChunksAux, List.length_map, if_neg h, List.map_cons,
        ← List.map_drop, ← List.map_take, ih]

theorem recordBatches_map (f : α → β) (l : List α) :
    recordBatches (l.map f) = (recordBatches l).map (List.map f) := by
  unfold recordBatches batchChunks
  rw [List.length_map]
  exact batchChunksAux_map _ f _ l

/-! Helper lemmas about the per-batch insert loop. -/

theorem noFailEnv_insert (row : VariantRow) : noFailEnv.insertFails row = false := rfl

theorem noFailEnv_maint (k : Nat) : noFailEnv.maintFails k = false := rfl

theorem insertLoop_events (env : ImportEnv) :
    ∀ (items : List (Except String VcfRecord)) (e : Event),
      e ∈ (insertLoop env items).1 → ∃ row, e = Event.insertRow row := by
  intro items
  induction items with
  | nil => intro e he; simp [insertLoop] at he
  | cons x rest ih =>
    intro e he
    cases x with
    | error msg => simp [insertLoop] at he
    | ok r =>
      by_cases hf : env.insertFails (execute_record r)
      · simp [insertLoop, hf] at he
      · simp only [insertLoop, hf, if_neg, Bool.false_eq_true, ite_false,
          List.mem_cons] at he
        rcases he with he | he
        · exact ⟨_, he⟩
        · exact ih e he

theorem insertLoop_ok_inv (env : ImportEnv) :
    ∀ (items : List (Except String VcfRecord)) (rows : List VariantRow),
      (insertLoop env items).2 = Except.ok rows →
        ∀ x ∈ items, ∃ r, x = Except.ok r ∧ env.insertFails (execute_record r) = false := by
  intro items
  induction items with
  | nil => intro rows _ x hx; simp at hx
  | cons y rest ih =>
    intro rows hok x hx
    cases y with
    | error msg => simp [insertLoop] at hok
    | ok r =>
      by_cases hf : env.insertFails (execute_record r)
      · simp [insertLoop, hf] at hok
      · simp only [insertLoop, hf, Bool.false_eq_true, ite_false] at hok
        rcases List.mem_cons.mp hx with hx | hx
        · exact ⟨r, hx, by simp [hf]⟩
        · rcases hres : (insertLoop env rest).2 with e | rows'
          · rw [hres] at hok; simp [Except.map] at hok
          · exact ih rows' hres x hx

theorem insertLoop_ok_rows (env : ImportEnv) :
    ∀ (items : List (Except String VcfRecord)) (rows : List VariantRow),
      (insertLoop env items).2 = Except.ok rows → rows = committedRows items := by
  intro items
  induction items with
  | nil => intro rows hok; simp [insertLoop] at hok; simp [committedRows, hok.symm]
  | cons y rest ih =>
    intro rows hok
    cases y with
    | error msg => simp [insertLoop] at hok
    | ok r =>
      by_cases hf : env.insertFails (execute_record r)
      · simp [insertLoop, hf] at hok
      · simp only [insertLoop, hf, Bool.false_eq_true, ite_false] at hok
        rcases hres : (insertLoop env rest).2 with e | rows'
        · rw [hres] at hok; simp [Except.map] at hok
        · rw [hres] at hok
          simp [Except.map] at hok
          simp [committedRows, Except.toOption, hok.symm]
          have := ih rows' hres
          simpa [committedRows] using this

theorem insertLoop_noFail (recs : List VcfRecord) :
    insertLoop noFailEnv (recs.map Except.ok) =
      (recs.map (fun r => Event.insertRow (execute_record r)),
       Except.ok (recs.map execute_record)) := by
  induction recs with
  | nil => simp [insertLoop]
  | cons r rest ih => simp [insertLoop, noFailEnv_insert, ih, Except.map]

/-! Helper lemmas about one batch iteration. -/

theorem processBatch_noFail (k : Nat) (db : Db) (recs : List VcfRecord) :
    processBatch noFailEnv k db (recs.map Except.ok) =
      (batchTraceOk recs,
       Except.ok { db with variants := db.variants ++ recs.map execute_record }) := by
  simp [processBatch, insertLoop_noFail, noFailEnv_maint, batchTraceOk]

theorem processBatch_eq_err (env : ImportEnv) (k : Nat) (db : Db)
    (items : List (Except String VcfRecord)) (err : ImportError)
    (h : (insertLoop env items).2 = Except.error err) :
    processBatch env k db items =
      (Event.beginTx :: (insertLoop env items).1, Except.error err) := by
  simp only [processBatch, h]

theorem processBatch_eq_maintFail (env : ImportEnv) (k : Nat) (db : Db)
    (items : List (Except String VcfRecord)) (rows : List VariantRow)
    (h : (insertLoop env items).2 = Except.ok rows) (hm : env.maintFails k = true) :
    processBatch env k db items =
      (Event.beginTx :: (insertLoop env items).1 ++ [Event.maintenance none 1],
       Except.error ImportError.maintError) := by
  simp only [processBatch, h, hm, if_true]

theorem processBatch_eq_ok (env : ImportEnv) (k : Nat) (db : Db)
    (items : List (Except String VcfRecord)) (rows : List VariantRow)
    (h : (insertLoop env items).2 = Except.ok rows) (hm : env.maintFails k = false) :
    processBatch env k db items =
      (Event.beginTx :: (insertLoop env items).1 ++ [Event.maintenance none 1] ++
        [Event.commitTx, Event.vacuum],
       Except.ok { db with variants := db.variants ++ rows }) := by
  simp only [processBatch, h, hm, Bool.false_eq_true, if_false]

theorem processBatch_events (env : ImportEnv) (k : Nat) (db : Db)
    (items : List (Except String VcfRecord)) (e : Event)
    (he : e ∈ (processBatch env k db items).1) : isBatchEvent e = true := by
  have hins : ∀ x ∈ (insertLoop env items).1, isBatchEvent x = true := by
    intro x hx
    rcases insertLoop_events env items x hx with ⟨row, hrow⟩
    simp [hrow, isBatchEvent]
  rcases hres : (insertLoop env items).2 with err | rows
  · rw [processBatch_eq_err env k db items err hres] at he
    rcases List.mem_cons.mp he with he | he
    · simp [he, isBatchEvent]
    · exact hins e he
  · cases hm : env.maintFails k
    · rw [processBatch_eq_ok env k db items rows hres hm] at he
      simp only [List.cons_append, List.append_assoc, List.singleton_append,
        List.mem_cons, List.mem_append, List.mem_singleton, List.not_mem_nil,
        or_false, false_or] at he
      rcases he with he | he | he | he | he
      · simp [he, isBatchEvent]
      · exact hins e he
      · simp [he, isBatchEvent]
      · simp [he, isBatchEvent]
      · simp [he, isBatchEvent]
    · rw [processBatch_eq_maintFail env k db items rows hres hm] at he
      simp only [List.cons_append, List.append_assoc, List.singleton_append,
        List.mem_cons, List.mem_append, List.mem_singleton, List.not_mem_nil,
        or_false, false_or] at he
      rcases he with he | he | he
      · simp [he, isBatchEvent]
      · exact hins e he
      · simp [he, isBatchEvent]

theorem processBatch_ok_inv (env : ImportEnv) (k : Nat) (db : Db)
    (items : List (Except String VcfRecord)) (db' : Db)
    (hok : (processBatch env k db items).2 = Except.ok db') :
    db' = { db with variants := db.variants ++ committedRows items } ∧
      env.maintFails k = false ∧
      ∀ x ∈ items, ∃ r, x = Except.ok r ∧ env.insertFails (execute_record r) = false := by
  rcases hres : (insertLoop env items).2 with err | rows
  · rw [processBatch_eq_err env k db items err hres] at hok
    simp at hok
  · cases hm : env.maintFails k
    · rw [processBatch_eq_ok env k db items rows hres hm] at hok
      simp only [Except.ok.injEq] at hok
      refine ⟨?_, hm ▸ rfl, insertLoop_ok_inv env items rows hres⟩
      rw [← hok, insertLoop_ok_rows env items rows hres]
    · rw [processBatch_eq_maintFail env k db items rows hres hm] at hok
      simp at hok

/-! Helper lemmas about the batch loop. -/

theorem runBatches_noFail :
    ∀ (bss : List (List VcfRecord)) (k : Nat) (db : Db),
      runBatches noFailEnv k db (bss.map (List.map Except.ok)) =
        ({ db with variants := db.variants ++ bss.flatten.map execute_record },
         (bss.map batchTraceOk).flatten, none) := by
  intro bss
  induction bss with
  | nil => intro k db; simp [runBatches]
  | cons bs rest ih =>
    intro k db
    simp only [List.map_cons, runBatches, processBatch_noFail, ih, List.flatten_cons,
      List.map_append, List.append_assoc]

theorem runBatches_events (env : ImportEnv) :
    ∀ (bs : List (List (Except String VcfRecord))) (k : Nat) (db : Db) (e : Event),
      e ∈ (runBatches env k db bs).2.1 → isBatchEvent e = true := by
  intro bs
  induction bs with
  | nil => intro k db e he; simp [runBatches] at he
  | cons b rest ih =>
    intro k db e he
    simp only [runBatches] at he
    rcases hpb : processBatch env k db b with ⟨evs, res⟩
    rw [hpb] at he
    cases res with
    | error err =>
      simp only at he
      have : e ∈ (processBatch env k db b).1 := by rw [hpb]; exact he
      exact processBatch_events env k db b e this
    | ok db' =>
      simp only [List.mem_append] at he
      rcases he with he | he
      · have : e ∈ (processBatch env k db b).1 := by rw [hpb]; exact he
        exact processBatch_events env k db b e this
      · exact ih (k + 1) db' e he

theorem runBatches_none_inv (env : ImportEnv) :
    ∀ (bs : List (List (Except String VcfRecord))) (k : Nat) (db : Db),
      (runBatches env k db bs).2.2 = none →
        (∀ b ∈ bs, ∀ x ∈ b, ∃ r, x = Except.ok r ∧
            env.insertFails (execute_record r) = false) ∧
          ∀ i < bs.length, env.maintFails (k + i) = false := by
  intro bs
  induction bs with
  | nil => intro k db _; exact ⟨by simp, by simp⟩
  | cons b rest ih =>
    intro k db hnone
    simp only [runBatches] at hnone
    rcases hpb : processBatch env k db b with ⟨evs, res⟩
    rw [hpb] at hnone
    cases res with
    | error err => simp at hnone
    | ok db' =>
      simp only at hnone
      have hok : (processBatch env k db b).2 = Except.ok db' := by rw [hpb]
      rcases processBatch_ok_inv env k db b db' hok with ⟨_, hm, hitems⟩
      rcases ih (k + 1) db' hnone with ⟨hrest, hmrest⟩
      refine ⟨?_, ?_⟩
      · intro bb hbb x hx
        rcases List.mem_cons.mp hbb with hbb | hbb
        · exact hitems x (hbb ▸ hx)
        · exact hrest bb hbb x hx
      · intro i hi
        cases i with
        | zero => simpa using hm
        | succ j =>
          have := hmrest j (by simpa using hi)
          have harith : k + 1 + j = k + (j + 1) := by omega
          rwa [harith] at this

theorem runBatches_error_inv (env : ImportEnv) :
    ∀ (bs : List (List (Except String VcfRecord))) (k : Nat) (db : Db) (e : ImportError),
      (runBatches env k db bs).2.2 = some e →
        ∃ j ≤ bs.length, (runBatches env k db bs).1.variants =
          db.variants ++ ((bs.take j).map committedRows).flatten := by
  intro bs
  induction bs with
  | nil => intro k db e he; simp [runBatches] at he
  | cons b rest ih =>
    intro k db e he
    rcases hpb : processBatch env k db b with ⟨evs, res⟩
    cases res with
    | error err =>
      simp only [runBatches, hpb] at he ⊢
      exact ⟨0, by simp, by simp⟩
    | ok db' =>
      simp only [runBatches, hpb] at he ⊢
      have hok : (processBatch env k db b).2 = Except.ok db' := by rw [hpb]
      rcases processBatch_ok_inv env k db b db' hok with ⟨hdb', _, _⟩
      rcases ih (k + 1) db' e he with ⟨j, hj, hvar⟩
      refine ⟨j + 1, by simpa using Nat.succ_le_succ hj, ?_⟩
      rw [hvar, hdb']
      simp [List.append_assoc]

/-! Characterization of a failure-free import run. -/

theorem importRun_noFail (db : Db) (header : Header) (records : List VcfRecord) :
    importRun noFailEnv db header (records.map Except.ok) =
      ({ ensureSchema db with
           zstdEnabled := true
           metadata := (ensureSchema db).metadata ++ [header]
           variants := (ensureSchema db).variants ++ records.map execute_record },
       fullTrace records, none) := by
  simp only [importRun, noFailEnv_maint, Bool.false_eq_true, if_false, store_header,
    recordBatches_map, runBatches_noFail, recordBatches_flatten, fullTrace,
    List.cons_append, List.nil_append, List.append_assoc]

/-! Lemmas about the shape of the failure-free trace. -/

theorem enable_not_mem_batchTraceOk (recs : List VcfRecord) :
    Event.enableCompression ∉ batchTraceOk recs := by
  simp [batchTraceOk]

theorem headerInsert_not_mem_batchTraceOk (recs : List VcfRecord) :
    Event.headerInsert ∉ batchTraceOk recs := by
  simp [batchTraceOk]

theorem batchTraceOk_count_maint (recs : List VcfRecord) :
    (batchTraceOk recs).count (Event.maintenance none 1) = 1 := by
  have hz : (recs.map (fun r => Event.insertRow (execute_record r))).count
      (Event.maintenance none 1) = 0 := by
    rw [List.count_eq_zero]
    simp
  simp [batchTraceOk, List.count_cons, List.count_append, hz]

theorem count_enable_flatten (bss : List (List VcfRecord)) :
    ((bss.map batchTraceOk).flatten).count Event.enableCompression = 0 := by
  rw [List.count_eq_zero]
  intro hmem
  rcases List.mem_flatten.mp hmem with ⟨l, hl, hel⟩
  rcases List.mem_map.mp hl with ⟨recs, _, hrecs⟩
  exact enable_not_mem_batchTraceOk recs (hrecs ▸ hel)

theorem count_maint_flatten (bss : List (List VcfRecord)) :
    ((bss.map batchTraceOk).flatten).count (Event.maintenance none 1) = bss.length := by
  induction bss with
  | nil => simp
  | cons recs rest ih =>
    simp [List.count_append, batchTraceOk_count_maint, ih, Nat.add_comm]

theorem batchTraceOk_reverse (recs : List VcfRecord) :
    (batchTraceOk recs).reverse =
      Event.vacuum :: Event.commitTx :: Event.maintenance none 1 ::
        ((recs.map (fun r => Event.insertRow (execute_record r))).reverse ++
          [Event.beginTx]) := by
  simp [batchTraceOk]

theorem takeWhile_batchTraces_reverse :
    ∀ (bss : List (List VcfRecord)), bss ≠ [] → ∀ (tail : List Event),
      (((bss.map batchTraceOk).flatten).reverse ++ tail).takeWhile
          (fun e => e != Event.commitTx) = [Event.vacuum] := by
  intro bss
  induction bss with
  | nil => intro h; exact absurd rfl h
  | cons recs rest ih =>
    intro _ tail
    cases rest with
    | nil =>
      simp only [List.map_cons, List.map_nil, List.flatten_cons, List.flatten_nil,
        List.append_nil, batchTraceOk_reverse, List.cons_append]
      rw [List.takeWhile_cons, List.takeWhile_cons]
      simp
    | cons b2 rest2 =>
      simp only [List.map_cons, List.flatten_cons, List.reverse_append,
        List.append_assoc]
      have hne : (b2 :: rest2 : List (List VcfRecord)) ≠ [] := by simp
      have := ih hne ((batchTraceOk recs).reverse ++ tail)
      simpa only [List.map_cons, List.flatten_cons, List.reverse_append,
        List.append_assoc] using this

/-! Helper lemmas about export reconstruction. -/

theorem exportRow_noPos (h : Header) (row : VariantRow) (hp : row.pos = none) :
    exportRow h row = Outcome.error := by
  simp [exportRow, hp, positionTryFrom]

theorem exportRows_ok_inv (h : Header) :
    ∀ (rows : List VariantRow) (outs : List OutRecord),
      exportRows h rows = Outcome.ok outs →
        ∀ row ∈ rows, ∃ o, exportRow h row = Outcome.ok o := by
  intro rows
  induction rows with
  | nil => intro outs _ row hrow; simp at hrow
  | cons r rest ih =>
    intro outs hok row hrow
    cases her : exportRow h r with
    | ok o =>
      rcases List.mem_cons.mp hrow with hrow | hrow
      · exact ⟨o, hrow ▸ her⟩
      · simp only [exportRows, her] at hok
        cases hrest : exportRows h rest with
        | ok outs' => exact ih outs' hrest row hrow
        | error => rw [hrest] at hok; simp at hok
        | panic => rw [hrest] at hok; simp at hok
    | error =>
      simp only [exportRows, her] at hok
      exact Outcome.noConfusion hok
    | panic =>
      simp only [exportRows, her] at hok
      exact Outcome.noConfusion hok

theorem exportRow_ok_parse (h : Header) (row : VariantRow) (o : OutRecord)
    (hok : exportRow h row = Outcome.ok o) :
    ∃ pairs, parse_info row.info h = Outcome.ok pairs := by
  cases hpt : positionTryFrom (row.pos.getD 0) with
  | none => simp [exportRow, hpt] at hok
  | some p =>
    cases hpi : parse_info row.info h with
    | ok pairs => exact ⟨pairs, rfl⟩
    | error => simp [exportRow, hpt, hpi] at hok
    | panic => simp [exportRow, hpt, hpi] at hok

theorem exportRows_head_panic (h : Header) (row : VariantRow) (rest : List VariantRow)
    (hp : row.pos.getD 0 ≠ 0) (hpi : parse_info row.info h = Outcome.panic) :
    exportRows h (row :: rest) = Outcome.panic := by
  simp [exportRows, exportRow, positionTryFrom, hp, hpi]

theorem exportRows_roundtrip (h : Header) :
    ∀ (recs : List VcfRecord),
      (∀ r ∈ recs, r.variantStart.getD 0 ≠ 0) →
      (∀ r ∈ recs, ∃ pairs, parse_info r.info h = Outcome.ok pairs) →
      ∃ outs, exportRows h (recs.map execute_record) = Outcome.ok outs ∧
        List.Forall₂ RoundTripMatch recs outs := by
  intro recs
  induction recs with
  | nil => intro _ _; exact ⟨[], by simp [exportRows], List.Forall₂.nil⟩
  | cons r rest ih =>
    intro hpos hinfo
    rcases hinfo r (by simp) with ⟨pairs, hpr⟩
    have hp0 : r.variantStart.getD 0 ≠ 0 := hpos r (by simp)
    rcases ih (fun x hx => hpos x (by simp [hx])) (fun x hx => hinfo x (by simp [hx])) with
      ⟨outs, houts, hfa⟩
    refine ⟨{ chrom := r.chrom, pos := r.variantStart.getD 0, ids := r.ids.head?.toList,
              refBases := r.refBases, alts := [r.alt], qual := r.qual,
              filters := [r.filter], info := pairs } :: outs, ?_, ?_⟩
    · simp only [List.map_cons, exportRows, exportRow, execute_record, positionTryFrom,
        hp0, if_false, ite_false, hpr, houts]
    · exact List.Forall₂.cons (by simp [RoundTripMatch]) hfa

/-! Helper lemmas about INFO re-parsing and conversion. -/

theorem lazyParseField_undeclared (h : Header) (f : List Char)
    (hlt : lookupType h (fieldKey f) = none) : lazyParseField h f = none := by
  simp [lazyParseField, hlt]

theorem lazyParseField_inv (h : Header) (f : List Char) (kv : String × Option LazyInfoValue)
    (hp : lazyParseField h f = some kv) :
    ∃ t, lookupType h (fieldKey f) = some t ∧ kv.1 = String.mk (fieldKey f) ∧
      ∀ lv, kv.2 = some lv → lazyValueHasType lv t = true := by
  cases hlt : lookupType h (fieldKey f) with
  | none => rw [lazyParseField_undeclared h f hlt] at hp; exact Option.noConfusion hp
  | some t =>
    refine ⟨t, rfl, ?_⟩
    cases hfv : fieldValue f with
    | none =>
      by_cases hfl : t = InfoType.tFlag
      · subst hfl
        simp only [lazyParseField, hlt, hfv, ite_true, Option.some.injEq] at hp
        subst hp
        refine ⟨rfl, ?_⟩
        intro lv hlv
        simp only [Option.some.injEq] at hlv
        simp [← hlv, lazyValueHasType]
      · simp only [lazyParseField, hlt, hfv, hfl, ite_false] at hp
        exact Option.noConfusion hp
    | some v =>
      by_cases hdot : v = ['.']
      · simp only [lazyParseField, hlt, hfv, hdot, ite_true, Option.some.injEq] at hp
        subst hp
        refine ⟨rfl, ?_⟩
        intro lv hlv
        exact Option.noConfusion hlv
      · cases t with
        | tFlag =>
          simp only [lazyParseField, hlt, hfv, hdot, ite_false] at hp
          exact Option.noConfusion hp
        | tInteger =>
          simp only [lazyParseField, hlt, hfv, hdot, ite_false, Option.map_eq_some'] at hp
          rcases hp with ⟨n, _, hkv⟩
          subst hkv
          refine ⟨rfl, ?_⟩
          intro lv hlv
          simp only [Option.some.injEq] at hlv
          simp [← hlv, lazyValueHasType]
        | tString =>
          simp only [lazyParseField, hlt, hfv, hdot, ite_false, Option.some.injEq] at hp
          subst hp
          refine ⟨rfl, ?_⟩
          intro lv hlv
          simp only [Option.some.injEq] at hlv
          simp [← hlv, lazyValueHasType]
        | tIntegerArray =>
          simp only [lazyParseField, hlt, hfv, hdot, ite_false, Option.some.injEq] at hp
          subst hp
          refine ⟨rfl, ?_⟩
          intro lv hlv
          simp only [Option.some.injEq] at hlv
          simp [← hlv, lazyValueHasType]

theorem lazyParseFields_inv (h : Header) :
    ∀ (fs : List (List Char)) (l : List (String × Option LazyInfoValue)),
      lazyParseFields h fs = some l →
        ∀ kv ∈ l, ∃ f ∈ fs, lazyParseField h f = some kv := by
  intro fs
  induction fs with
  | nil =>
    intro l hl kv hkv
    simp only [lazyParseFields, Option.some.injEq] at hl
    rw [← hl] at hkv
    simp at hkv
  | cons f rest ih =>
    intro l hl kv hkv
    cases hkv0 : lazyParseField h f with
    | none => simp [lazyParseFields, hkv0] at hl
    | some kv0 =>
      cases hrest : lazyParseFields h rest with
      | none => simp [lazyParseFields, hkv0, hrest] at hl
      | some l' =>
        simp only [lazyParseFields, hkv0, hrest, Option.some.injEq] at hl
        rw [← hl] at hkv
        rcases List.mem_cons.mp hkv with hkv | hkv
        · exact ⟨f, List.mem_cons_self f rest, by rw [hkv0, hkv]⟩
        · rcases ih l' hrest kv hkv with ⟨g, hg, hpg⟩
          exact ⟨g, List.mem_cons_of_mem f hg, hpg⟩

theorem lazyParseFields_none (h : Header) :
    ∀ (fs : List (List Char)) (f : List Char), f ∈ fs → lazyParseField h f = none →
      lazyParseFields h fs = none := by
  intro fs
  induction fs with
  | nil => intro f hf; simp at hf
  | cons g rest ih =>
    intro f hf hnone
    rcases List.mem_cons.mp hf with hf | hf
    · rw [hf] at hnone
      simp [lazyParseFields, hnone]
    · cases hg : lazyParseField h g with
      | none => simp [lazyParseFields, hg]
      | some kv => simp [lazyParseFields, hg, ih f hf hnone]

theorem convertValue_type (lv : LazyInfoValue) (v : InfoValue) (t : InfoType)
    (hc : convertValue lv = some v) (ht : lazyValueHasType lv t = true) :
    valueHasType v t = true := by
  cases lv with
  | int n =>
    cases t <;> simp_all [convertValue, lazyValueHasType]
    simp [← hc, valueHasType]
  | str s =>
    cases t <;> simp_all [convertValue, lazyValueHasType]
    simp [← hc, valueHasType]
  | flag =>
    cases t <;> simp_all [convertValue, lazyValueHasType]
    simp [← hc, valueHasType]
  | intArrayRaw raw =>
    cases t <;> simp_all [lazyValueHasType]
    simp only [convertValue, Option.map_eq_some'] at hc
    rcases hc with ⟨ns, _, hv⟩
    simp [← hv, valueHasType]

theorem convertPairs_inv :
    ∀ (l : List (String × Option LazyInfoValue)) (pairs : List (String × Option InfoValue)),
      convertPairs l = Outcome.ok pairs →
        ∀ kv ∈ pairs, ∃ kv' ∈ l, kv.1 = kv'.1 ∧
          ((kv.2 = none ∧ kv'.2 = none) ∨
            ∃ lv bv, kv'.2 = some lv ∧ kv.2 = some bv ∧ convertValue lv = some bv) := by
  intro l
  induction l with
  | nil =>
    intro pairs hp kv hkv
    simp only [convertPairs, Outcome.ok.injEq] at hp
    rw [← hp] at hkv
    simp at hkv
  | cons x rest ih =>
    rcases x with ⟨k, ov⟩
    cases ov with
    | none =>
      intro pairs hp kv hkv
      cases hrest : convertPairs rest with
      | ok l' =>
        simp only [convertPairs, hrest, Outcome.ok.injEq] at hp
        rw [← hp] at hkv
        rcases List.mem_cons.mp hkv with hkv | hkv
        · exact ⟨(k, none), List.mem_cons_self _ _, by rw [hkv], Or.inl ⟨by rw [hkv], rfl⟩⟩
        · rcases ih l' hrest kv hkv with ⟨kv', hkv', hkey, hval⟩
          exact ⟨kv', List.mem_cons_of_mem _ hkv', hkey, hval⟩
      | error => simp [convertPairs, hrest] at hp
      | panic => simp [convertPairs, hrest] at hp
    | some lv =>
      intro pairs hp kv hkv
      cases hcv : convertValue lv with
      | none => simp [convertPairs, hcv] at hp
      | some bv =>
        cases hrest : convertPairs rest with
        | ok l' =>
          simp only [convertPairs, hcv, hrest, Outcome.ok.injEq] at hp
          rw [← hp] at hkv
          rcases List.mem_cons.mp hkv with hkv | hkv
          · refine ⟨(k, some lv), List.mem_cons_self _ _, by rw [hkv], Or.inr ?_⟩
            exact ⟨lv, bv, rfl, by rw [hkv], hcv⟩
          · rcases ih l' hrest kv hkv with ⟨kv', hkv', hkey, hval⟩
            exact ⟨kv', List.mem_cons_of_mem _ hkv', hkey, hval⟩
        | error => simp [convertPairs, hcv, hrest] at hp
        | panic => simp [convertPairs, hcv, hrest] at hp

theorem convertPairs_panic (k : String) (lv : LazyInfoValue) :
    ∀ (l : List (String × Option LazyInfoValue)), (k, some lv) ∈ l →
      convertValue lv = none → convertPairs l = Outcome.panic := by
  intro l
  induction l with
  | nil => intro hmem; simp at hmem
  | cons x rest ih =>
    intro hmem hcv
    rcases x with ⟨k', ov⟩
    rcases List.mem_cons.mp hmem with heq | hmem2
    · injection heq with hk hov
      rw [← hov]
      simp [convertPairs, hcv]
    · cases ov with
      | none => simp [convertPairs, ih hmem2 hcv]
      | some lv' =>
        cases hcv' : convertValue lv' with
        | none => simp [convertPairs, hcv']
        | some bv' => simp [convertPairs, hcv', ih hmem2 hcv]

/-! Lemmas connecting parse_info to the header declarations. -/

theorem parse_info_typed (h : Header) (s : String)
    (pairs : List (String × Option InfoValue)) (hp : parse_info s h = Outcome.ok pairs) :
    ∀ kv ∈ pairs, ∃ t, h.infos.lookup kv.1 = some t ∧
      ∀ v, kv.2 = some v → valueHasType v t = true := by
  cases hlz : lazyParseFields h (infoFields s) with
  | none => simp [parse_info, hlz] at hp
  | some l =>
    simp only [parse_info, hlz] at hp
    intro kv hkv
    rcases convertPairs_inv l pairs hp kv hkv with ⟨kv', hkv', hkey, hval⟩
    rcases lazyParseFields_inv h _ l hlz kv' hkv' with ⟨f, _, hpf⟩
    rcases lazyParseField_inv h f kv' hpf with ⟨t, hlt, hk1, hty⟩
    refine ⟨t, ?_, ?_⟩
    · rw [hkey, hk1]
      exact hlt
    · intro v hv
      rcases hval with ⟨hnone, _⟩ | ⟨lv, bv, hlv, hbv, hcv⟩
      · rw [hnone] at hv; exact Option.noConfusion hv
      · rw [hbv] at hv
        injection hv with hv
        rw [← hv]
        exact convertValue_type lv bv t hcv (hty lv hlv)

theorem parse_info_undeclared (h : Header) (s : String) (f : List Char)
    (hf : f ∈ infoFields s) (hlt : lookupType h (fieldKey f) = none) :
    parse_info s h = Outcome.error := by
  have hnone := lazyParseFields_none h (infoFields s) f hf (lazyParseField_undeclared h f hlt)
  simp [parse_info, hnone]

theorem parse_info_panic_of (h : Header) (s : String)
    (l : List (String × Option LazyInfoValue)) (k : String) (lv : LazyInfoValue)
    (hlz : lazyParseFields h (infoFields s) = some l) (hmem : (k, some lv) ∈ l)
    (hcv : convertValue lv = none) : parse_info s h = Outcome.panic := by
  simp [parse_info, hlz, convertPairs_panic k lv l hmem hcv]

/-! Claim theorems. -/

/-- C2: for every exported row, the raw stored INFO text is re-parsed against
the header loaded from the metadata table: (a) every key/value pair
reconstructed by `parse_info` has its key declared in the header and its
value of the declared type, (b) an INFO field whose key is not declared in
the header makes the re-parse fail with an error, and (c) a successful
export implies that every stored row's INFO text re-parsed successfully
against the loaded header. -/
theorem c2_info_fidelity :
    (∀ (h : Header) (s : String) (pairs : List (String × Option InfoValue)),
        parse_info s h = Outcome.ok pairs →
          ∀ kv ∈ pairs, ∃ t, h.infos.lookup kv.1 = some t ∧
            ∀ v, kv.2 = some v → valueHasType v t = true) ∧
    (∀ (h : Header) (s : String) (f : List Char), f ∈ infoFields s →
        lookupType h (fieldKey f) = none → parse_info s h = Outcome.error) ∧
    (∀ (db : Db) (h : Header) (outs : List OutRecord), load_header db = some h →
        query db = Outcome.ok outs →
          ∀ row ∈ db.variants, ∃ pairs, parse_info row.info h = Outcome.ok pairs) := by
  refine ⟨fun h s pairs hp => parse_info_typed h s pairs hp,
    fun h s f hf hlt => parse_info_undeclared h s f hf hlt, ?_⟩
  intro db h outs hload hq row hrow
  simp only [query, hload] at hq
  rcases exportRows_ok_inv h db.variants outs hq row hrow with ⟨o, ho⟩
  exact exportRow_ok_parse h row o ho

/-- C2 witness: the INFO text `ZZ=1` carries a key not declared in
`exampleHeader`, so its re-parse fails with an error. -/
theorem c2_info_fidelity_witness : parse_info "ZZ=1" exampleHeader = Outcome.error :=
  c2_info_fidelity.2.1 exampleHeader "ZZ=1" "ZZ=1".toList (by decide) (by decide)

/-- C7: the schema setup (variant table, metadata table, chrom+pos index,
all created with IF NOT EXISTS) is idempotent: a second invocation returns
the same state as the first, both tables and the index exist afterwards, and
existing table contents are preserved rather than duplicated. -/
theorem c7_schema_idempotent (db : Db) :
    ensureSchema (ensureSchema db) = ensureSchema db ∧
    (ensureSchema db).hasVariantsTable = true ∧
    (ensureSchema db).hasMetadataTable = true ∧
    (ensureSchema db).hasIndex = true ∧
    (ensureSchema db).variants = (if db.hasVariantsTable then db.variants else []) ∧
    (ensureSchema db).metadata = (if db.hasMetadataTable then db.metadata else []) := by
  refine ⟨?_, rfl, rfl, rfl, rfl, rfl⟩
  simp [ensureSchema]

/-- C8: when the metadata table holds no row, `load_header` fails
(`query_row` finds no row), and hence export fails. -/
theorem c8_header_load_failure (db : Db) (hmeta : db.metadata = []) :
    load_header db = none ∧ query db = Outcome.error := by
  have hl : load_header db = none := by simp [load_header, hmeta]
  exact ⟨hl, by simp [query, hl]⟩

/-- C8 witness: a fresh database has an empty metadata table, so loading the
header and exporting both fail. -/
theorem c8_header_load_failure_witness :
    load_header Db.empty = none ∧ query Db.empty = Outcome.error :=
  c8_header_load_failure Db.empty rfl

/-- C9: a stored row whose pos column is NULL is substituted with 0 by
`unwrap_or_default`, which the 1-based position validation rejects, so the
row's reconstruction errors and no export containing such a row can succeed:
the round trip cannot hold for records without a resolvable position. -/
theorem c9_null_position_export (db : Db) (row : VariantRow) :
    positionTryFrom 0 = none ∧
    (∀ h : Header, row.pos = none → exportRow h row = Outcome.error) ∧
    (row ∈ db.variants → row.pos = none → ∀ outs, query db ≠ Outcome.ok outs) := by
  refine ⟨rfl, fun h hp => exportRow_noPos h row hp, ?_⟩
  intro hrow hp outs hq
  cases hload : load_header db with
  | none => simp [query, hload] at hq
  | some h =>
    simp only [query, hload] at hq
    rcases exportRows_ok_inv h db.variants outs hq row hrow with ⟨o, ho⟩
    rw [exportRow_noPos h row hp] at ho
    exact Outcome.noConfusion ho

/-- C9 witness: the database whose single row has a NULL position cannot be
exported. -/
theorem c9_null_position_export_witness : query noPosDb ≠ Outcome.ok [] :=
  (c9_null_position_export noPosDb noPosRow).2.2 (by decide) rfl []

/-- C10: when every INFO field of a row parses lazily under the header but
some value's conversion into the buffered representation fails, `parse_info`
panics through the `unwrap` instead of returning an error, and the export of
a database whose first row is such a row terminates by panic rather than by
a propagated error result. -/
theorem c10_conversion_panic :
    (∀ (h : Header) (s : String) (l : List (String × Option LazyInfoValue))
        (k : String) (lv : LazyInfoValue),
        lazyParseFields h (infoFields s) = some l → (k, some lv) ∈ l →
          convertValue lv = none →
            parse_info s h = Outcome.panic ∧ parse_info s h ≠ Outcome.error) ∧
    (∀ (db : Db) (h : Header) (row : VariantRow) (rest : List VariantRow),
        load_header db = some h → db.variants = row :: rest → row.pos.getD 0 ≠ 0 →
          parse_info row.info h = Outcome.panic → query db = Outcome.panic) := by
  constructor
  · intro h s l k lv hlz hmem hcv
    have hp := parse_info_panic_of h s l k lv hlz hmem hcv
    refine ⟨hp, ?_⟩
    rw [hp]
    exact fun hx => Outcome.noConfusion hx
  · intro db h row rest hload hvar hp hpi
    simp only [query, hload, hvar]
    exact exportRows_head_panic h row rest hp hpi

/-- C10 witness: exporting the database whose single row has INFO `AC=1,x`
(declared Integer-array, item `x` unparsable) panics. -/
theorem c10_conversion_panic_witness : query panicDb = Outcome.panic :=
  c10_conversion_panic.2 panicDb exampleHeader panicRow [] rfl rfl (by decide) (by decide)

/-- C1 (amended): importing a file of syntactically valid records into a
fresh store and exporting with no grouping and no filter yields one output
record per input with chrom, ref, qual and filter preserved and the id list
holding at most the original's first identifier (so a record with no ID and
no quality score exports with an empty id list and an absent quality score),
provided every record has a resolvable nonzero position and an INFO text
that re-parses under the stored header; without those provisos the whole
export fails (see the counterexample). -/
theorem c1_round_trip (header : Header) (records : List VcfRecord)
    (hpos : ∀ r ∈ records, r.variantStart.getD 0 ≠ 0)
    (hinfo : ∀ r ∈ records, ∃ pairs, parse_info r.info header = Outcome.ok pairs) :
    ∃ outs, query (importRun noFailEnv Db.empty header (records.map Except.ok)).1 =
        Outcome.ok outs ∧ outs.length = records.length ∧
      List.Forall₂ RoundTripMatch records outs := by
  rcases exportRows_roundtrip header records hpos hinfo with ⟨outs, houts, hfa⟩
  refine ⟨outs, ?_, hfa.length_eq.symm, hfa⟩
  rw [importRun_noFail]
  simp only [query, load_header, ensureSchema, Db.empty, Bool.false_eq_true, if_false,
    ite_false, List.nil_append, List.head?_cons]
  exact houts

/-- C1 witness: the spec's three-record example, where record 2 has no ID and
no quality score. -/
theorem c1_round_trip_witness :
    ∃ outs, query (importRun noFailEnv Db.empty exampleHeader
        ([exampleRecord1, exampleRecord2, exampleRecord3].map Except.ok)).1 =
      Outcome.ok outs ∧
      outs.length = [exampleRecord1, exampleRecord2, exampleRecord3].length ∧
      List.Forall₂ RoundTripMatch [exampleRecord1, exampleRecord2, exampleRecord3] outs := by
  refine c1_round_trip exampleHeader [exampleRecord1, exampleRecord2, exampleRecord3]
    (by decide) ?_
  intro r hr
  rcases List.mem_cons.mp hr with h1 | hr
  · exact ⟨[("DP", some (InfoValue.int 14)), ("DB", some InfoValue.flag)],
      by rw [h1]; decide⟩
  rcases List.mem_cons.mp hr with h2 | hr
  · exact ⟨[], by rw [h2]; decide⟩
  rcases List.mem_cons.mp hr with h3 | hr
  · exact ⟨[("AA", some (InfoValue.str "T"))], by rw [h3]; decide⟩
  · simp at hr

/-- C1 counterexample: the claim fails as stated for every file of
syntactically valid records: a single-record file whose record has no
resolvable position, or carries an INFO key not declared in the header,
imports fine but exports no records at all (the export errors), rather than
one matching record. -/
theorem c1_round_trip_cex :
    (¬ ∃ outs, query (importRun noFailEnv Db.empty exampleHeader
        ([noPosRecord].map Except.ok)).1 = Outcome.ok outs) ∧
    (¬ ∃ outs, query (importRun noFailEnv Db.empty exampleHeader
        ([badKeyRecord].map Except.ok)).1 = Outcome.ok outs) := by
  constructor
  · rintro ⟨outs, houts⟩
    have h : query (importRun noFailEnv Db.empty exampleHeader
        ([noPosRecord].map Except.ok)).1 = Outcome.error := by decide
    rw [h] at houts
    exact Outcome.noConfusion houts
  · rintro ⟨outs, houts⟩
    have h : query (importRun noFailEnv Db.empty exampleHeader
        ([badKeyRecord].map Except.ok)).1 = Outcome.error := by decide
    rw [h] at houts
    exact Outcome.noConfusion houts

theorem fullTrace_reverse_takeWhile (records : List VcfRecord) :
    (fullTrace records).reverse.takeWhile (fun e => e != Event.commitTx) =
      [Event.analyze, Event.vacuum] := by
  have h := takeWhile_batchTraces_reverse (recordBatches records)
    (recordBatches_ne_nil records)
    [Event.headerInsert, Event.maintenance none 1, Event.enableCompression]
  have hrev : (fullTrace records).reverse =
      Event.analyze :: (((recordBatches records).map batchTraceOk).flatten.reverse ++
        [Event.headerInsert, Event.maintenance none 1, Event.enableCompression]) := by
    simp [fullTrace]
  rw [hrev, List.takeWhile_cons]
  simp only [h]
  rfl

theorem fullTrace_count_enable (records : List VcfRecord) :
    (fullTrace records).count Event.enableCompression = 1 := by
  simp [fullTrace, List.count_cons, List.count_append, count_enable_flatten, beq_iff_eq]

theorem fullTrace_count_maint (records : List VcfRecord) :
    (fullTrace records).count (Event.maintenance none 1) =
      (recordBatches records).length + 1 := by
  simp [fullTrace, List.count_cons, List.count_append, count_maint_flatten, beq_iff_eq]

/-- C3 (amended): in every failure-free full import, the compression enable
operation runs exactly once; maintenance runs once per batch-loop iteration
plus one extra invocation placed immediately after enable, at the very start
of the run and before any record is read (the trace starts with enable then
maintenance); after the final batch commit only VACUUM and ANALYZE run, so
there is no additional maintenance pass at the end of the import. -/
theorem c3_maintenance_schedule (db : Db) (header : Header) (records : List VcfRecord) :
    ((importRun noFailEnv db header (records.map Except.ok)).2.1).count
        Event.enableCompression = 1 ∧
    ((importRun noFailEnv db header (records.map Except.ok)).2.1).count
        (Event.maintenance none 1) =
      (recordBatches (records.map (Except.ok : VcfRecord → Except String VcfRecord))).length + 1 ∧
    ((importRun noFailEnv db header (records.map Except.ok)).2.1).take 2 =
        [Event.enableCompression, Event.maintenance none 1] ∧
    ((importRun noFailEnv db header (records.map Except.ok)).2.1).reverse.takeWhile
        (fun e => e != Event.commitTx) = [Event.analyze, Event.vacuum] := by
  have ht : (importRun noFailEnv db header (records.map Except.ok)).2.1 =
      fullTrace records := by
    rw [importRun_noFail]
  rw [ht]
  refine ⟨fullTrace_count_enable records, ?_, ?_, fullTrace_reverse_takeWhile records⟩
  · rw [recordBatches_map, List.length_map]
    exact fullTrace_count_maint records
  · rw [fullTrace]
    rfl

/-- C3 counterexample: in a one-record import no maintenance call happens at
the end of the import: only one maintenance invocation occurs from the first
transaction onwards (the claim needs one per batch plus one more at the end,
i.e. at least two), and the extra invocation sits at the very start of the
trace, before the header is stored or any record is read. -/
theorem c3_maintenance_schedule_cex :
    ((eventsFrom Event.headerInsert
        (importRun noFailEnv Db.empty exampleHeader
          ([exampleRecord1].map Except.ok)).2.1).filter isMaint).length = 1 ∧
    ((importRun noFailEnv Db.empty exampleHeader
        ([exampleRecord1].map Except.ok)).2.1).take 2 =
      [Event.enableCompression, Event.maintenance none 1] := by decide

theorem batchEvent_maint (e : Event) (hb : isBatchEvent e = true) (hm : isMaint e = true) :
    e = Event.maintenance none 1 := by
  cases e <;> simp_all [isBatchEvent, isMaint]

/-- C4 (amended): every maintenance invocation of every import run — the
initial one and the steady-state per-batch ones alike — uses the
maximum-effort budget `zstd_incremental_maintenance(NULL, 1)`: no time limit
and full target load. No cooperative, time-limited budget is ever used (the
cooperative 60-second half-yield call exists only in a comment). -/
theorem c4_maintenance_budget (env : ImportEnv) (db : Db) (header : Header)
    (stream : List (Except String VcfRecord)) (e : Event)
    (he : e ∈ (importRun env db header stream).2.1) (hm : isMaint e = true) :
    e = Event.maintenance none 1 := by
  by_cases h0 : env.maintFails 0
  · simp only [importRun, h0, if_true] at he
    rcases List.mem_cons.mp he with he | he
    · rw [he] at hm; simp [isMaint] at hm
    · simp only [List.mem_singleton] at he
      exact he
  · rcases hres : (runBatches env 1 (store_header header
        { ensureSchema db with zstdEnabled := true }) (recordBatches stream)).2.2 with _ | e'
    · simp only [importRun, h0, Bool.false_eq_true, if_false, hres] at he
      rcases List.mem_append.mp he with he | he
      · rcases List.mem_append.mp he with he | he
        · rcases List.mem_append.mp he with he | he
          · rcases List.mem_cons.mp he with he | he
            · rw [he] at hm; simp [isMaint] at hm
            · simp only [List.mem_singleton] at he
              exact he
          · simp only [List.mem_singleton] at he
            rw [he] at hm; simp [isMaint] at hm
        · exact batchEvent_maint e (runBatches_events env _ _ _ e he) hm
      · simp only [List.mem_singleton] at he
        rw [he] at hm; simp [isMaint] at hm
    · simp only [importRun, h0, Bool.false_eq_true, if_false, hres] at he
      rcases List.mem_append.mp he with he | he
      · rcases List.mem_append.mp he with he | he
        · rcases List.mem_cons.mp he with he | he
          · rw [he] at hm; simp [isMaint] at hm
          · simp only [List.mem_singleton] at he
            exact he
        · simp only [List.mem_singleton] at he
          rw [he] at hm; simp [isMaint] at hm
      · exact batchEvent_maint e (runBatches_events env _ _ _ e he) hm

/-- C4 witness: the maintenance event of a concrete one-record import is in
the trace and indeed carries the maximum-effort budget. -/
theorem c4_maintenance_budget_witness :
    Event.maintenance none 1 = Event.maintenance none 1 :=
  c4_maintenance_budget noFailEnv Db.empty exampleHeader
    ([exampleRecord1].map Except.ok) (Event.maintenance none 1) (by decide) rfl

/-- C4 counterexample: in a one-record import, the only maintenance
invocation from the first transaction onwards — the steady-state per-batch
one — is `zstd_incremental_maintenance(NULL, 1)`: no time limit and full
load, not a cooperative time-limited half-yield budget. -/
theorem c4_maintenance_budget_cex :
    (eventsFrom Event.beginTx
        (importRun noFailEnv Db.empty exampleHeader
          ([exampleRecord1].map Except.ok)).2.1).filter isMaint =
      [Event.maintenance none 1] := by decide

theorem runBatches_metadata (env : ImportEnv) :
    ∀ (bs : List (List (Except String VcfRecord))) (k : Nat) (db : Db),
      (runBatches env k db bs).1.metadata = db.metadata := by
  intro bs
  induction bs with
  | nil => intro k db; simp [runBatches]
  | cons b rest ih =>
    intro k db
    rcases hpb : processBatch env k db b with ⟨evs, res⟩
    cases res with
    | error err => simp [runBatches, hpb]
    | ok db' =>
      simp only [runBatches, hpb]
      rw [ih (k + 1) db']
      have hok : (processBatch env k db b).2 = Except.ok db' := by rw [hpb]
      rcases processBatch_ok_inv env k db b db' hok with ⟨hdb', _, _⟩
      rw [hdb']

theorem runBatches_count_headerInsert (env : ImportEnv)
    (bs : List (List (Except String VcfRecord))) (k : Nat) (db : Db) :
    ((runBatches env k db bs).2.1).count Event.headerInsert = 0 := by
  rw [List.count_eq_zero]
  intro hmem
  have hb := runBatches_events env bs k db _ hmem
  simp [isBatchEvent] at hb

theorem takeWhile_until_header (X : List Event) :
    (Event.enableCompression :: Event.maintenance none 1 ::
        Event.headerInsert :: X).takeWhile (fun e => e != Event.headerInsert) =
      [Event.enableCompression, Event.maintenance none 1] := by
  rfl

/-- C5 (amended): every import run whose initial maintenance call does not
fail appends exactly one header row to the metadata table, immediately after
the initial execute_batch and before any variant row insert (the trace up to
the header insert is exactly the enable and initial maintenance events, and
the header insert occurs exactly once); hence a single import into a fresh
store leaves exactly one metadata row, but the code has no duplicate guard,
so a repeated import adds a second row (see the counterexample). -/
theorem c5_metadata_row (env : ImportEnv) (db : Db) (header : Header)
    (stream : List (Except String VcfRecord)) (h0 : env.maintFails 0 = false) :
    (importRun env db header stream).1.metadata =
        (ensureSchema db).metadata ++ [header] ∧
    ((importRun env db header stream).2.1).takeWhile
        (fun e => e != Event.headerInsert) =
      [Event.enableCompression, Event.maintenance none 1] ∧
    ((importRun env db header stream).2.1).count Event.headerInsert = 1 := by
  rcases hres : (runBatches env 1 (store_header header
      { ensureSchema db with zstdEnabled := true }) (recordBatches stream)).2.2 with _ | e'
  · simp only [importRun, h0, Bool.false_eq_true, if_false, hres]
    refine ⟨?_, ?_, ?_⟩
    · rw [runBatches_metadata]
      simp [store_header]
    · simp only [List.cons_append, List.nil_append, List.append_assoc]
      exact takeWhile_until_header _
    · simp [List.count_cons, List.count_append, runBatches_count_headerInsert, beq_iff_eq]
  · simp only [importRun, h0, Bool.false_eq_true, if_false, hres]
    refine ⟨?_, ?_, ?_⟩
    · rw [runBatches_metadata]
      simp [store_header]
    · simp only [List.cons_append, List.nil_append, List.append_assoc]
      exact takeWhile_until_header _
    · simp [List.count_cons, List.count_append, runBatches_count_headerInsert, beq_iff_eq]

/-- C5 witness: a concrete empty-stream import on a fresh store stores the
header exactly once, before any record processing. -/
theorem c5_metadata_row_witness :
    (importRun noFailEnv Db.empty exampleHeader []).1.metadata =
        (ensureSchema Db.empty).metadata ++ [exampleHeader] ∧
    ((importRun noFailEnv Db.empty exampleHeader []).2.1).takeWhile
        (fun e => e != Event.headerInsert) =
      [Event.enableCompression, Event.maintenance none 1] ∧
    ((importRun noFailEnv Db.empty exampleHeader []).2.1).count Event.headerInsert = 1 :=
  c5_metadata_row noFailEnv Db.empty exampleHeader [] rfl

/-- C5 counterexample: re-running import against the same database inserts a
second metadata row, so the metadata table of that database holds two header
rows, not exactly one. -/
theorem c5_metadata_row_cex :
    (importRun noFailEnv (importRun noFailEnv Db.empty exampleHeader
        ([exampleRecord1].map Except.ok)).1 exampleHeader
        ([exampleRecord1].map Except.ok)).1.metadata =
      [exampleHeader, exampleHeader] := by decide

/-- C6: import aborts on any failure and never skips or retries: a run that
finishes without error consumed only parseable records, with no INSERT
failure on any of their rows and no maintenance failure on any of the calls
the run makes; and a run that returns an error leaves the store holding
exactly the rows of some prefix of complete committed batches appended to
the pre-existing rows — no partial batch, no skipped record, no
continuation past the failure. -/
theorem c6_abort_semantics (env : ImportEnv) (db : Db) (header : Header)
    (stream : List (Except String VcfRecord)) :
    ((importRun env db header stream).2.2 = none →
      (∀ x ∈ stream, ∃ r, x = Except.ok r ∧ env.insertFails (execute_record r) = false) ∧
        ∀ k ≤ (recordBatches stream).length, env.maintFails k = false) ∧
    (∀ e, (importRun env db header stream).2.2 = some e →
      ∃ j ≤ (recordBatches stream).length,
        (importRun env db header stream).1.variants =
          (ensureSchema db).variants ++
            (((recordBatches stream).take j).map committedRows).flatten) := by
  by_cases h0 : env.maintFails 0
  · constructor
    · intro hnone
      simp only [importRun, h0, if_true] at hnone
      exact Option.noConfusion hnone
    · intro e he
      simp only [importRun, h0, if_true]
      exact ⟨0, Nat.zero_le _, by simp⟩
  · rcases hres : (runBatches env 1 (store_header header
        { ensureSchema db with zstdEnabled := true }) (recordBatches stream)).2.2 with _ | e'
    · constructor
      · intro _
        rcases runBatches_none_inv env (recordBatches stream) 1 _ hres with ⟨hitems, hmaint⟩
        constructor
        · intro x hx
          have hx2 : x ∈ (recordBatches stream).flatten := by
            rw [recordBatches_flatten]; exact hx
          rcases List.mem_flatten.mp hx2 with ⟨b, hb, hxb⟩
          exact hitems b hb x hxb
        · intro k hk
          cases k with
          | zero =>
            simp only [Bool.not_eq_true] at h0
            exact h0
          | succ j =>
            have hj := hmaint j (by omega)
            have harith : 1 + j = j + 1 := Nat.add_comm 1 j
            rwa [harith] at hj
      · intro e he
        simp only [importRun, h0, Bool.false_eq_true, if_false, hres] at he
        exact Option.noConfusion he
    · constructor
      · intro hnone
        simp only [importRun, h0, Bool.false_eq_true, if_false, hres] at hnone
        exact Option.noConfusion hnone
      · intro e he
        simp only [importRun, h0, Bool.false_eq_true, if_false, hres]
        rcases runBatches_error_inv env (recordBatches stream) 1 _ e' hres with ⟨j, hj, hvar⟩
        refine ⟨j, hj, ?_⟩
        rw [hvar]
        simp [store_header]

/-- C6 witness: a two-item stream whose second record fails to parse aborts
the import, and the store keeps exactly the rows of the committed batch
prefix (here none, since the failing batch rolled back). -/
theorem c6_abort_semantics_witness :
    ∃ j ≤ (recordBatches [Except.ok exampleRecord1,
        (Except.error "bad" : Except String VcfRecord)]).length,
      (importRun noFailEnv Db.empty exampleHeader
          [Except.ok exampleRecord1, Except.error "bad"]).1.variants =
        (ensureSchema Db.empty).variants ++
          (((recordBatches [Except.ok exampleRecord1,
              (Except.error "bad" : Except String VcfRecord)]).take j).map
            committedRows).flatten :=
  (c6_abort_semantics noFailEnv Db.empty exampleHeader
      [Except.ok exampleRecord1, Except.error "bad"]).2
    (ImportError.parseError "bad") (by decide)
